import Mathlib

/-!
Shallow embedding of the `slice` crate (`src/lib.rs`): the `IoSlice` bounded
view over a seekable stream.

Machine integers are modelled as `Nat` (`u64`, `usize`) and `Int` (`i64`).
The Rust `as u64` cast of an `i64` is `i64ToU64` (reduction modulo `2^64`).
Unsigned arithmetic in the source is exact under the constructor's invariants
(`begin + length ≤ i64::MAX`, `remaining ≤ length`), so plain `Nat` addition
and truncated subtraction coincide with `u64` arithmetic at every reachable
call site; the short-circuit `||` in `IoSlice::new` guarantees `begin + length`
is only evaluated when both operands are at most `i64::MAX`.

The underlying stream is abstract: a `Streamer σ` packages the stream
operations the source invokes on `self.underlying`, each returning both an
`Except` result and the successor stream state (Rust mutates the owned stream
in place even when an operation fails). Fallible operations return
`Except IoError`.
-/

/-- Error kinds observable from the library: the three `std::io::ErrorKind`
values the source constructs, plus `io code` for an arbitrary error surfaced
by the underlying stream (propagated unchanged by `?`). -/
inductive IoError where
  | invalidInput
  | unexpectedEof
  | other
  | io (code : Nat)
deriving DecidableEq, Repr

/-- `std::i64::MAX as u64`. -/
def I64_MAX : Nat := 9223372036854775807

/-- `std::usize::MAX as u64` on a 64-bit platform. -/
def USIZE_MAX : Nat := 18446744073709551615

/-- The Rust cast `x as u64` for `x : i64`: reduction modulo `2^64`
(negative values map to `2^64 + x`). -/
def i64ToU64 (x : Int) : Nat := (x % (18446744073709551616 : Int)).toNat

/-- `std::io::SeekFrom`: `Start` carries a `u64`, `Current` and `End` carry
an `i64`. -/
inductive SeekFrom where
  | Start (x : Nat)
  | Current (x : Int)
  | End (x : Int)
deriving DecidableEq, Repr

/-- The value compared against `i64::MAX` by the guard at the top of
`IoSlice::seek`: `match position { Start(x) => x as u64, Current(x) => x as u64,
End(x) => x as u64 }`. -/
def SeekFrom.rawU64 : SeekFrom → Nat
  | .Start x => x
  | .Current x => i64ToU64 x
  | .End x => i64ToU64 x

/-- Abstract interface of the underlying stream: exactly the operations the
source invokes on `self.underlying`. Each returns its `Except` result paired
with the stream's successor state. `seek` takes the absolute target offset
(the source only ever issues `SeekFrom::Start`); `read` takes the request
length and yields the actual count delivered; `readExact` yields the bytes
placed in the destination; `write` yields the count accepted. -/
structure Streamer (σ : Type) where
  seek : σ → Nat → Except IoError Nat × σ
  read : σ → Nat → Except IoError Nat × σ
  readExact : σ → Nat → Except IoError (List Nat) × σ
  write : σ → List Nat → Except IoError Nat × σ
  writeAll : σ → List Nat → Except IoError Unit × σ
  flush : σ → Except IoError Unit × σ

/-- The `IoSlice` struct: owned underlying stream plus the three `u64`
fields `begin`, `length`, `remaining`. -/
structure IoSlice (σ : Type) where
  underlying : σ
  begin : Nat
  length : Nat
  remaining : Nat
deriving DecidableEq, Repr

/-- `IoSlice::len`: returns `self.length`. -/
def IoSlice.len (v : IoSlice σ) : Nat := v.length

/-- `IoSlice::position`: returns `self.length - self.remaining`. -/
def IoSlice.position (v : IoSlice σ) : Nat := v.length - v.remaining

/-- `IoSlice::pos`: returns `self.position()`. -/
def IoSlice.pos (v : IoSlice σ) : Nat := v.position

/-- `IoSlice::new(source, begin, length)`: the invariant check, the initial
positioning seek `SeekFrom::Start(begin)`, and the comparison of the reported
position against `begin`. -/
def IoSlice.new (S : Streamer σ) (source : σ) (begin length : Nat) :
    Except IoError (IoSlice σ) :=
  if begin > I64_MAX || length > I64_MAX || begin + length > I64_MAX then
    .error .invalidInput
  else
    match S.seek source begin with
    | (.error e, _) => .error e
    | (.ok p, s) =>
      if p = begin then
        .ok { underlying := s, begin := begin, length := length, remaining := length }
      else
        .error .invalidInput

/-- The `absolute` offset computed by `IoSlice::seek`'s `match`:
`Start(v) => begin + v`, `Current(v) => begin + length - remaining + v as u64`,
`End(v) => begin + length + v as u64`. -/
def IoSlice.seekAbsolute (v : IoSlice σ) : SeekFrom → Nat
  | .Start value => v.begin + value
  | .Current value => v.begin + v.length - v.remaining + i64ToU64 value
  | .End value => v.begin + v.length + i64ToU64 value

/-- `<IoSlice as Seek>::seek`: the `rawU64 > i64::MAX` guard, the `absolute`
computation, the `[begin, begin + length]` bounds check, the underlying
absolute seek with its reported-position comparison, and the
`remaining = length - new` update. -/
def IoSlice.seek (S : Streamer σ) (v : IoSlice σ) (position : SeekFrom) :
    Except IoError Nat × IoSlice σ :=
  if position.rawU64 > I64_MAX then
    (.error .invalidInput, v)
  else
    let absolute := v.seekAbsolute position
    if absolute ≥ v.begin ∧ absolute ≤ v.begin + v.length then
      match S.seek v.underlying absolute with
      | (.error e, s) => (.error e, { v with underlying := s })
      | (.ok p, s) =>
        if p = absolute then
          let new := absolute - v.begin
          (.ok new, { v with underlying := s, remaining := v.length - new })
        else
          (.error .other, { v with underlying := s })
    else
      (.error .unexpectedEof, v)

/-- The request length computed by `<IoSlice as Read>::read`:
`min(min(self.remaining, usize::MAX), buffer.len())`. -/
def IoSlice.readRequest (v : IoSlice σ) (buflen : Nat) : Nat :=
  min (min v.remaining USIZE_MAX) buflen

/-- `<IoSlice as Read>::read`: clamps the request to
`min(min(remaining, usize::MAX), buffer.len())`, delegates to the underlying
read, and decrements `remaining` by the actual count delivered. The buffer is
represented by its length (only counts flow through this function). -/
def IoSlice.read (S : Streamer σ) (v : IoSlice σ) (buflen : Nat) :
    Except IoError Nat × IoSlice σ :=
  match S.read v.underlying (v.readRequest buflen) with
  | (.error e, s) => (.error e, { v with underlying := s })
  | (.ok actual, s) =>
    (.ok actual, { v with underlying := s, remaining := v.remaining - actual })

/-- `<IoSlice as Read>::read_to_end`: the `remaining > usize::MAX` guard, the
exact-length read of `remaining` bytes into reserved capacity appended after
the buffer's existing content (`set_len` commits the new length only on a
fully successful `read_exact`, so on error the visible buffer is unchanged),
`remaining := 0`, and the old `remaining` returned as the count. -/
def IoSlice.readToEnd (S : Streamer σ) (v : IoSlice σ) (buffer : List Nat) :
    Except IoError Nat × List Nat × IoSlice σ :=
  if v.remaining > USIZE_MAX then
    (.error .invalidInput, buffer, v)
  else
    match S.readExact v.underlying v.remaining with
    | (.error e, s) => (.error e, buffer, { v with underlying := s })
    | (.ok bytes, s) =>
      (.ok v.remaining, buffer ++ bytes, { v with underlying := s, remaining := 0 })

/-- `<IoSlice as Write>::write`: rejects with `UnexpectedEof` when
`buffer.len() > remaining` (before touching the underlying stream), otherwise
delegates and decrements `remaining` by the count the underlying stream
accepted. -/
def IoSlice.write (S : Streamer σ) (v : IoSlice σ) (buffer : List Nat) :
    Except IoError Nat × IoSlice σ :=
  if buffer.length > v.remaining then
    (.error .unexpectedEof, v)
  else
    match S.write v.underlying buffer with
    | (.error e, s) => (.error e, { v with underlying := s })
    | (.ok actual, s) =>
      (.ok actual, { v with underlying := s, remaining := v.remaining - actual })

/-- `<IoSlice as Write>::write_all`: the same `buffer.len() > remaining`
pre-check, then delegation to the underlying `write_all`. NOTE: faithful to
the source, `remaining` is NOT decremented on success (lines 223-229 of
`src/lib.rs` contain no `self.remaining -=`). -/
def IoSlice.writeAll (S : Streamer σ) (v : IoSlice σ) (buffer : List Nat) :
    Except IoError Unit × IoSlice σ :=
  if buffer.length > v.remaining then
    (.error .unexpectedEof, v)
  else
    match S.writeAll v.underlying buffer with
    | (.error e, s) => (.error e, { v with underlying := s })
    | (.ok _, s) => (.ok (), { v with underlying := s })

/-- `<IoSlice as Write>::flush`: delegates directly to the underlying flush. -/
def IoSlice.flush (S : Streamer σ) (v : IoSlice σ) :
    Except IoError Unit × IoSlice σ :=
  match S.flush v.underlying with
  | (.error e, s) => (.error e, { v with underlying := s })
  | (.ok _, s) => (.ok (), { v with underlying := s })

/-- A concrete, well-behaved in-memory stream (a growable byte buffer with a
cursor), used to instantiate the abstract `Streamer` interface in witnesses. -/
structure MemStream where
  data : List Nat
  cursor : Nat
deriving DecidableEq, Repr

/-- Overwrite `buffer` at the cursor, extending the data if needed, and
advance the cursor. -/
def MemStream.writeBytes (s : MemStream) (buffer : List Nat) : MemStream :=
  { data := s.data.take s.cursor ++ buffer ++ s.data.drop (s.cursor + buffer.length),
    cursor := s.cursor + buffer.length }

/-- The well-behaved in-memory instantiation of the `Streamer` interface:
seeks land exactly where requested, reads deliver `min(request, available)`
bytes, exact reads fail when fewer than `n` bytes are available, writes accept
the whole buffer, flush is a no-op. -/
def memStreamer : Streamer MemStream where
  seek s abs := (.ok abs, { s with cursor := abs })
  read s request :=
    let actual := min request (s.data.length - s.cursor)
    (.ok actual, { s with cursor := s.cursor + actual })
  readExact s n :=
    if s.cursor + n ≤ s.data.length then
      (.ok ((s.data.drop s.cursor).take n), { s with cursor := s.cursor + n })
    else
      (.error .unexpectedEof, { s with cursor := s.data.length })
  write s buffer := (.ok buffer.length, s.writeBytes buffer)
  writeAll s buffer := (.ok (), s.writeBytes buffer)
  flush s := (.ok (), s)

/-- The window invariant plus window constancy: the successor view `w` keeps
`remaining ≤ length` and has the same `begin` and `length` as `v`. -/
def InvPreserved (v w : IoSlice σ) : Prop :=
  w.remaining ≤ w.length ∧ w.begin = v.begin ∧ w.length = v.length

deriving instance DecidableEq for Except

/-- C6: for every `(begin, length)` with `begin > i64::MAX`, or
`length > i64::MAX` (the maximum addressable size), or
`begin + length > i64::MAX`, `IoSlice::new` rejects with `InvalidInput` for
every underlying stream — the result does not depend on the stream, so the
stream is never touched. -/
theorem C6_new_rejects (σ : Type) (S : Streamer σ) (source : σ) (b l : Nat)
    (h : b > I64_MAX ∨ l > I64_MAX ∨ b + l > I64_MAX) :
    IoSlice.new S source b l = .error .invalidInput := by
  rcases h with h | h | h <;> simp [IoSlice.new, h]

/-- Witness for C6 at `begin = i64::MAX + 1`, `length = 0`. -/
theorem C6_new_rejects_witness :
    IoSlice.new memStreamer ⟨[], 0⟩ 9223372036854775808 0 = .error .invalidInput :=
  C6_new_rejects MemStream memStreamer ⟨[], 0⟩ 9223372036854775808 0
    (Or.inl (by decide))

/-- C7: for every valid `(begin, length)` with `begin + length ≤ i64::MAX`,
when the underlying seek reports landing exactly at `begin`, `IoSlice::new`
succeeds with `remaining = length`, so `len()` returns `length` and
`position()` returns 0; when the underlying seek reports a different position
than requested, `IoSlice::new` rejects with `InvalidInput`. -/
theorem C7_new_valid (σ : Type) (S : Streamer σ) (source : σ) (b l : Nat)
    (h : b + l ≤ I64_MAX) :
    (∀ s, S.seek source b = (.ok b, s) →
      IoSlice.new S source b l = .ok ⟨s, b, l, l⟩ ∧
      IoSlice.len (⟨s, b, l, l⟩ : IoSlice σ) = l ∧
      IoSlice.position (⟨s, b, l, l⟩ : IoSlice σ) = 0) ∧
    (∀ p s, S.seek source b = (.ok p, s) → p ≠ b →
      IoSlice.new S source b l = .error .invalidInput) := by
  have hb : ¬ b > I64_MAX := by omega
  have hl : ¬ l > I64_MAX := by omega
  have hbl : ¬ b + l > I64_MAX := by omega
  constructor
  · intro s hs
    refine ⟨?_, rfl, ?_⟩
    · simp [IoSlice.new, hb, hl, hbl, hs]
    · simp [IoSlice.position]
  · intro p s hs hp
    simp [IoSlice.new, hb, hl, hbl, hs, hp]

/-- Witness for C7: a three-byte in-memory stream, window `[1, 1 + 2]`. -/
theorem C7_new_valid_witness :
    IoSlice.new memStreamer ⟨[7, 8, 9], 0⟩ 1 2 = .ok ⟨⟨[7, 8, 9], 1⟩, 1, 2, 2⟩ ∧
    IoSlice.len (⟨⟨[7, 8, 9], 1⟩, 1, 2, 2⟩ : IoSlice MemStream) = 2 ∧
    IoSlice.position (⟨⟨[7, 8, 9], 1⟩, 1, 2, 2⟩ : IoSlice MemStream) = 0 :=
  (C7_new_valid MemStream memStreamer ⟨[7, 8, 9], 0⟩ 1 2 (by decide)).1
    ⟨[7, 8, 9], 1⟩ (by decide)

/-- C5: `write` fails immediately with `UnexpectedEof` — the view (and its
underlying stream) unchanged — when the buffer is longer than `remaining`;
otherwise it delegates to the underlying write, propagates its error
unchanged, and on success decrements `remaining` by the count the underlying
stream accepted and returns that count. -/
theorem C5_write_contract (σ : Type) (S : Streamer σ) (v : IoSlice σ)
    (buffer : List Nat) :
    (buffer.length > v.remaining →
      IoSlice.write S v buffer = (.error .unexpectedEof, v)) ∧
    (buffer.length ≤ v.remaining →
      (∀ e s, S.write v.underlying buffer = (.error e, s) →
        IoSlice.write S v buffer = (.error e, { v with underlying := s })) ∧
      (∀ actual s, S.write v.underlying buffer = (.ok actual, s) →
        IoSlice.write S v buffer =
          (.ok actual,
           { v with underlying := s, remaining := v.remaining - actual }))) := by
  constructor
  · intro h
    simp [IoSlice.write, h]
  · intro h
    have hno : ¬ buffer.length > v.remaining := by omega
    exact ⟨fun e s hs => by simp [IoSlice.write, hno, hs],
           fun actual s hs => by simp [IoSlice.write, hno, hs]⟩

/-- Witness for C5: both branches at concrete inputs — a 4-byte write into a
window with 3 bytes remaining is rejected with the view unchanged, and a
2-byte write into the same window is accepted with `remaining` dropping to 1. -/
theorem C5_write_contract_witness :
    IoSlice.write memStreamer ⟨⟨[0, 0, 0], 0⟩, 0, 3, 3⟩ [1, 2, 3, 4] =
      (.error .unexpectedEof, ⟨⟨[0, 0, 0], 0⟩, 0, 3, 3⟩) ∧
    IoSlice.write memStreamer ⟨⟨[0, 0, 0], 0⟩, 0, 3, 3⟩ [1, 2] =
      (.ok 2, ⟨⟨[1, 2, 0], 2⟩, 0, 3, 1⟩) :=
  ⟨(C5_write_contract MemStream memStreamer ⟨⟨[0, 0, 0], 0⟩, 0, 3, 3⟩
      [1, 2, 3, 4]).1 (by decide),
   (C5_write_contract MemStream memStreamer ⟨⟨[0, 0, 0], 0⟩, 0, 3, 3⟩
      [1, 2]).2 (by decide) |>.2 2 ⟨[1, 2, 0], 2⟩ (by decide)⟩

/-- C10: a `write` of an empty buffer never trips the window pre-check, even
when `remaining = 0`: the call is delegated to the underlying write (its
error, if any, passes through), and for a well-behaved underlying write
(accepting at most the buffer's 0 bytes) it returns 0 bytes written with
`remaining` unchanged. -/
theorem C10_empty_write (σ : Type) (S : Streamer σ) (v : IoSlice σ) :
    (∀ e s, S.write v.underlying [] = (.error e, s) →
      IoSlice.write S v [] = (.error e, { v with underlying := s })) ∧
    (∀ actual s, S.write v.underlying [] = (.ok actual, s) →
      actual ≤ ([] : List Nat).length →
      IoSlice.write S v [] = (.ok 0, { v with underlying := s }) ∧
      (IoSlice.write S v []).2.remaining = v.remaining) := by
  have hno : ¬ ([] : List Nat).length > v.remaining := by simp
  constructor
  · intro e s hs
    simp [IoSlice.write, hno, hs]
  · intro actual s hs ha
    have h0 : actual = 0 := by simpa using ha
    subst h0
    simp [IoSlice.write, hno, hs]

/-- Witness for C10: empty write on a fully exhausted view (`remaining = 0`)
returns 0 and leaves the view as it was. -/
theorem C10_empty_write_witness :
    IoSlice.write memStreamer ⟨⟨[4, 5], 2⟩, 0, 2, 0⟩ [] =
      (.ok 0, ⟨⟨[4, 5], 2⟩, 0, 2, 0⟩) ∧
    (IoSlice.write memStreamer ⟨⟨[4, 5], 2⟩, 0, 2, 0⟩ []).2.remaining = 0 :=
  (C10_empty_write MemStream memStreamer ⟨⟨[4, 5], 2⟩, 0, 2, 0⟩).2 0 ⟨[4, 5], 2⟩
    (by decide) (by decide)

/-- C1 (failing input): on a fresh 10-byte window over a well-behaved
in-memory stream, `write_all` of a 4-byte buffer succeeds and writes the whole
buffer to the underlying stream, but leaves `remaining` at 10: the source's
`write_all` (src/lib.rs lines 223-229) contains no `self.remaining -=`, so
`remaining` is NOT decremented by the buffer's length as the spec requires
(`10 - 4 = 6` is never reached), leaving `position()` stale. -/
theorem C1_writeAll_no_decrement :
    IoSlice.writeAll memStreamer ⟨⟨List.replicate 10 0, 0⟩, 0, 10, 10⟩ [1, 2, 3, 4] =
      (.ok (), ⟨⟨[1, 2, 3, 4, 0, 0, 0, 0, 0, 0], 4⟩, 0, 10, 10⟩) ∧
    (IoSlice.writeAll memStreamer ⟨⟨List.replicate 10 0, 0⟩, 0, 10, 10⟩
      [1, 2, 3, 4]).2.remaining ≠ 10 - 4 := by
  decide

/-- C2 (counterexample): a view with `begin = 0`, `length = 10` positioned at
5 (`remaining = 5`), over a well-behaved in-memory stream that honors every
positioning request. A seek of `Current(-1)` has computed absolute offset
`0 + 5 + (-1) = 4`, inside `[0, 10]`, so the claim predicts success returning
4 — but the code's `i64`-to-`u64` cast in the pre-check turns `-1` into
`2^64 - 1 > i64::MAX`, and the seek is rejected with `InvalidInput` before
any bounds computation. -/
theorem C2_counterexample :
    IoSlice.seek memStreamer ⟨⟨List.replicate 10 0, 5⟩, 0, 10, 5⟩ (.Current (-1)) =
      (.error .invalidInput, ⟨⟨List.replicate 10 0, 5⟩, 0, 10, 5⟩) ∧
    (0 : Int) + (10 - 5) + (-1) = 4 ∧ (0 : Int) ≤ 4 ∧ (4 : Int) ≤ 0 + 10 := by
  decide

/-- C2 (amended): for every seek target that survives the raw-`u64` pre-check
(`Start(x)` with `x ≤ i64::MAX`; `Current`/`End` only with non-negative
deltas, since a negative `i64` cast to `u64` always exceeds `i64::MAX`) whose
computed absolute offset lies in `[begin, begin + length]`, seek succeeds when
the underlying stream honors the positioning: it returns
`new_position = absolute - begin` and sets `remaining = length - new_position`. -/
theorem C2_seek_in_window (σ : Type) (S : Streamer σ) (v : IoSlice σ)
    (p : SeekFrom) (hraw : p.rawU64 ≤ I64_MAX)
    (hlo : v.seekAbsolute p ≥ v.begin)
    (hhi : v.seekAbsolute p ≤ v.begin + v.length) :
    ∀ s, S.seek v.underlying (v.seekAbsolute p) = (.ok (v.seekAbsolute p), s) →
      IoSlice.seek S v p =
        (.ok (v.seekAbsolute p - v.begin),
         { v with underlying := s,
                  remaining := v.length - (v.seekAbsolute p - v.begin) }) := by
  intro s hs
  have hno : ¬ p.rawU64 > I64_MAX := by omega
  simp [IoSlice.seek, hno, hlo, hhi, hs]

/-- Witness for C2 (amended): `Start(4)` on a fresh 10-byte window lands at
position 4 with 6 bytes remaining. -/
theorem C2_seek_in_window_witness :
    IoSlice.seek memStreamer ⟨⟨List.replicate 10 0, 0⟩, 0, 10, 10⟩ (.Start 4) =
      (.ok 4, ⟨⟨List.replicate 10 0, 4⟩, 0, 10, 6⟩) :=
  C2_seek_in_window MemStream memStreamer ⟨⟨List.replicate 10 0, 0⟩, 0, 10, 10⟩
    (.Start 4) (by decide) (by decide) (by decide) ⟨List.replicate 10 0, 4⟩
    (by decide)

/-- C3 (counterexample): on a fresh 10-byte window, the target `-1` before the
window start — expressed as `End(-11)` — fails with `InvalidInput` (the
negative delta is caught by the raw-`u64` pre-check), not with the
`UnexpectedEof` the claim predicts. -/
theorem C3_counterexample :
    (IoSlice.seek memStreamer ⟨⟨List.replicate 10 0, 0⟩, 0, 10, 10⟩ (.End (-11))).1 =
      .error .invalidInput ∧
    (IoSlice.seek memStreamer ⟨⟨List.replicate 10 0, 0⟩, 0, 10, 10⟩ (.End (-11))).1 ≠
      .error .unexpectedEof := by
  decide

/-- C3 (amended): a seek that survives the raw-`u64` pre-check but whose
computed absolute offset lies past the window end fails with `UnexpectedEof`
and leaves the view — in particular `position()` — unchanged; a seek rejected
by the pre-check (every negative `Current`/`End` delta, hence every target
before the window start) fails with `InvalidInput`, also leaving `position()`
unchanged. -/
theorem C3_seek_out_of_window (σ : Type) (S : Streamer σ) (v : IoSlice σ)
    (p : SeekFrom) :
    (p.rawU64 ≤ I64_MAX → v.seekAbsolute p > v.begin + v.length →
      IoSlice.seek S v p = (.error .unexpectedEof, v) ∧
      (IoSlice.seek S v p).2.position = v.position) ∧
    (p.rawU64 > I64_MAX →
      IoSlice.seek S v p = (.error .invalidInput, v) ∧
      (IoSlice.seek S v p).2.position = v.position) := by
  constructor
  · intro hraw hout
    have hno : ¬ p.rawU64 > I64_MAX := by omega
    have hnotin : ¬ (v.seekAbsolute p ≥ v.begin ∧
        v.seekAbsolute p ≤ v.begin + v.length) := by omega
    constructor
    · simp [IoSlice.seek, hno, hnotin]
    · simp [IoSlice.seek, hno, hnotin]
  · intro hraw
    constructor
    · simp [IoSlice.seek, hraw]
    · simp [IoSlice.seek, hraw]

/-- Witness for C3 (amended): `Start(11)` on a fresh 10-byte window (target
`length + 1` past the end) fails with `UnexpectedEof` and `position()` stays
at 0. -/
theorem C3_seek_out_of_window_witness :
    IoSlice.seek memStreamer ⟨⟨List.replicate 10 0, 0⟩, 0, 10, 10⟩ (.Start 11) =
      (.error .unexpectedEof, ⟨⟨List.replicate 10 0, 0⟩, 0, 10, 10⟩) ∧
    (IoSlice.seek memStreamer ⟨⟨List.replicate 10 0, 0⟩, 0, 10, 10⟩
      (.Start 11)).2.position =
      IoSlice.position (⟨⟨List.replicate 10 0, 0⟩, 0, 10, 10⟩ : IoSlice MemStream) :=
  (C3_seek_out_of_window MemStream memStreamer
    ⟨⟨List.replicate 10 0, 0⟩, 0, 10, 10⟩ (.Start 11)).1 (by decide) (by decide)

/-- C4: `read` requests at most `min(remaining, buffer length)` bytes from
the underlying stream (and never more than `usize::MAX`, the platform's
maximum single-operation size), propagates underlying errors unchanged,
decrements `remaining` by exactly the count the underlying stream delivered,
and when `remaining = 0` a well-behaved underlying read (delivering at most
the requested 0 bytes) yields 0 bytes read, not an error. -/
theorem C4_read_contract (σ : Type) (S : Streamer σ) (v : IoSlice σ)
    (buflen : Nat) :
    v.readRequest buflen ≤ min v.remaining buflen ∧
    v.readRequest buflen ≤ USIZE_MAX ∧
    (∀ e s, S.read v.underlying (v.readRequest buflen) = (.error e, s) →
      IoSlice.read S v buflen = (.error e, { v with underlying := s })) ∧
    (∀ actual s, S.read v.underlying (v.readRequest buflen) = (.ok actual, s) →
      IoSlice.read S v buflen =
        (.ok actual, { v with underlying := s, remaining := v.remaining - actual })) ∧
    (v.remaining = 0 → ∀ actual s,
      S.read v.underlying (v.readRequest buflen) = (.ok actual, s) →
      actual ≤ v.readRequest buflen →
      (IoSlice.read S v buflen).1 = .ok 0 ∧
      (IoSlice.read S v buflen).2.remaining = 0) := by
  refine ⟨?_, ?_, ?_, ?_, ?_⟩
  · simp only [IoSlice.readRequest]
    omega
  · simp only [IoSlice.readRequest]
    omega
  · intro e s hs
    simp [IoSlice.read, hs]
  · intro actual s hs
    simp [IoSlice.read, hs]
  · intro h0 actual s hs ha
    have hr : v.readRequest buflen = 0 := by
      simp only [IoSlice.readRequest, h0]
      omega
    have h0' : actual = 0 := by omega
    subst h0'
    simp [IoSlice.read, hs, h0]

/-- Witness for C4: a 2-byte buffer against a 3-byte window delivers 2 bytes
and leaves 1 remaining; with the window exhausted, a read yields `Ok 0`. -/
theorem C4_read_contract_witness :
    IoSlice.read memStreamer ⟨⟨[5, 6, 7], 0⟩, 0, 3, 3⟩ 2 =
      (.ok 2, ⟨⟨[5, 6, 7], 2⟩, 0, 3, 1⟩) ∧
    (IoSlice.read memStreamer ⟨⟨[5, 6, 7], 3⟩, 0, 3, 0⟩ 2).1 = .ok 0 :=
  ⟨(C4_read_contract MemStream memStreamer ⟨⟨[5, 6, 7], 0⟩, 0, 3, 3⟩ 2).2.2.2.1
      2 ⟨[5, 6, 7], 2⟩ (by decide),
   ((C4_read_contract MemStream memStreamer ⟨⟨[5, 6, 7], 3⟩, 0, 3, 0⟩ 2).2.2.2.2
      rfl 0 ⟨[5, 6, 7], 3⟩ (by decide) (by decide)).1⟩

/-- C8: `read_to_end` fails with `InvalidInput` (buffer and view untouched)
when `remaining > usize::MAX`; otherwise it issues an exact read of
`remaining` bytes — a short read surfaces as the underlying error with the
buffer's visible content unchanged — and on a full read it appends the bytes
after the buffer's existing content, sets `remaining` to 0, and returns the
number of bytes read. -/
theorem C8_readToEnd_contract (σ : Type) (S : Streamer σ) (v : IoSlice σ)
    (buffer : List Nat) :
    (v.remaining > USIZE_MAX →
      IoSlice.readToEnd S v buffer = (.error .invalidInput, buffer, v)) ∧
    (v.remaining ≤ USIZE_MAX →
      (∀ e s, S.readExact v.underlying v.remaining = (.error e, s) →
        IoSlice.readToEnd S v buffer =
          (.error e, buffer, { v with underlying := s })) ∧
      (∀ bytes s, S.readExact v.underlying v.remaining = (.ok bytes, s) →
        bytes.length = v.remaining →
        IoSlice.readToEnd S v buffer =
          (.ok v.remaining, buffer ++ bytes,
           { v with underlying := s, remaining := 0 }) ∧
        (buffer ++ bytes).length = buffer.length + v.remaining)) := by
  constructor
  · intro h
    simp [IoSlice.readToEnd, h]
  · intro h
    have hno : ¬ v.remaining > USIZE_MAX := by omega
    constructor
    · intro e s hs
      simp [IoSlice.readToEnd, hno, hs]
    · intro bytes s hs hlen
      constructor
      · simp [IoSlice.readToEnd, hno, hs]
      · simp [hlen]

/-- Witness for C8: window `[1, 1 + 3]` over a 5-byte stream positioned at 1;
the bulk read appends bytes 2, 3, 4 after the existing content `[9]` and
drives `remaining` to 0, returning 3. -/
theorem C8_readToEnd_contract_witness :
    IoSlice.readToEnd memStreamer ⟨⟨[1, 2, 3, 4, 5], 1⟩, 1, 3, 3⟩ [9] =
      (.ok 3, [9, 2, 3, 4], ⟨⟨[1, 2, 3, 4, 5], 4⟩, 1, 3, 0⟩) ∧
    ([9] ++ [2, 3, 4]).length = [9].length + 3 :=
  ((C8_readToEnd_contract MemStream memStreamer ⟨⟨[1, 2, 3, 4, 5], 1⟩, 1, 3, 3⟩
      [9]).2 (by decide)).2 [2, 3, 4] ⟨[1, 2, 3, 4, 5], 4⟩ (by decide) (by decide)

/-- C9: starting from any view satisfying the constructor's invariant
`remaining ≤ length` (every view `IoSlice::new` returns has
`remaining = length`), each of seek, read, read_to_end, write, write_all and
flush yields a view that still satisfies `remaining ≤ length` (hence
`position() ∈ [0, length]`, as `position = length - remaining` in `Nat`) with
`begin` and `length` — and therefore `len()` — unchanged. -/
theorem C9_invariant_preserved (σ : Type) (S : Streamer σ) (v : IoSlice σ)
    (hinv : v.remaining ≤ v.length) :
    (∀ p : SeekFrom, InvPreserved v (IoSlice.seek S v p).2) ∧
    (∀ buflen : Nat, InvPreserved v (IoSlice.read S v buflen).2) ∧
    (∀ buffer : List Nat, InvPreserved v (IoSlice.readToEnd S v buffer).2.2) ∧
    (∀ buffer : List Nat, InvPreserved v (IoSlice.write S v buffer).2) ∧
    (∀ buffer : List Nat, InvPreserved v (IoSlice.writeAll S v buffer).2) ∧
    InvPreserved v (IoSlice.flush S v).2 := by
  refine ⟨?_, ?_, ?_, ?_, ?_, ?_⟩
  · intro p
    simp only [IoSlice.seek]
    split
    · exact ⟨hinv, rfl, rfl⟩
    · split
      · rcases hS : S.seek v.underlying (v.seekAbsolute p) with ⟨r, s⟩
        rcases r with e | q
        · simp [hS, InvPreserved, hinv]
        · simp only [hS]
          split
          · exact ⟨Nat.sub_le _ _, rfl, rfl⟩
          · exact ⟨hinv, rfl, rfl⟩
      · exact ⟨hinv, rfl, rfl⟩
  · intro buflen
    simp only [IoSlice.read]
    rcases hS : S.read v.underlying (v.readRequest buflen) with ⟨r, s⟩
    rcases r with e | actual
    · exact ⟨hinv, rfl, rfl⟩
    · exact ⟨by simpa using Nat.le_trans (Nat.sub_le _ _) hinv, rfl, rfl⟩
  · intro buffer
    simp only [IoSlice.readToEnd]
    split
    · exact ⟨hinv, rfl, rfl⟩
    · rcases hS : S.readExact v.underlying v.remaining with ⟨r, s⟩
      rcases r with e | bytes
      · exact ⟨hinv, rfl, rfl⟩
      · exact ⟨Nat.zero_le _, rfl, rfl⟩
  · intro buffer
    simp only [IoSlice.write]
    split
    · exact ⟨hinv, rfl, rfl⟩
    · rcases hS : S.write v.underlying buffer with ⟨r, s⟩
      rcases r with e | actual
      · exact ⟨hinv, rfl, rfl⟩
      · exact ⟨by simpa using Nat.le_trans (Nat.sub_le _ _) hinv, rfl, rfl⟩
  · intro buffer
    simp only [IoSlice.writeAll]
    split
    · exact ⟨hinv, rfl, rfl⟩
    · rcases hS : S.writeAll v.underlying buffer with ⟨r, s⟩
      rcases r with e | u
      · exact ⟨hinv, rfl, rfl⟩
      · exact ⟨hinv, rfl, rfl⟩
  · simp only [IoSlice.flush]
    rcases hS : S.flush v.underlying with ⟨r, s⟩
    rcases r with e | u
    · exact ⟨hinv, rfl, rfl⟩
    · exact ⟨hinv, rfl, rfl⟩

/-- Witness for C9: the invariant and the window constancy hold after a
concrete in-window seek on a freshly constructed 10-byte view. -/
theorem C9_invariant_preserved_witness :
    InvPreserved (⟨⟨List.replicate 10 0, 0⟩, 0, 10, 10⟩ : IoSlice MemStream)
      (IoSlice.seek memStreamer ⟨⟨List.replicate 10 0, 0⟩, 0, 10, 10⟩
        (.Start 7)).2 :=
  (C9_invariant_preserved MemStream memStreamer
    ⟨⟨List.replicate 10 0, 0⟩, 0, 10, 10⟩ (by decide)).1 (.Start 7)
